import Mathlib

/-!
Shallow embedding of the coordinate-conversion core of `sbressie/dms-decimal-converter`.

Source files embedded:
* `src/dms-converter.py` — `dms_to_dd` (scalar DMS→DD parser) and
  `convert_dataframe` (batch converter).
* `src/app.py` — `extract_pair_from_line` (regex pair extractor) and the
  comma/slash fallback split used by its caller.

Modelling conventions:
* Strings are `List Char`; Python `str.strip` / `str.upper` / `str.replace`
  are modelled character-wise on ASCII (Unicode-only behaviour such as
  non-ASCII case folding or exotic whitespace is out of scope of the claims).
* Real arithmetic is idealised over `ℚ` (the Python code uses binary floats;
  every claim is about exact decimal arithmetic, so `ℚ` is the faithful
  idealisation).
* Python `float(s)` is modelled by `parseFloat?` covering the literal forms
  `[+|-] digits [. digits] [E [+|-] digits]`; the special texts
  `inf`/`nan` and digit underscores are not representable in `ℚ` and are not
  exercised by any claim, so they are outside the model.
* `re.findall(r"[\d.]+|[NSEW]", s)` and the `app.py` regexes are embedded as
  deterministic scanners; each quantifier in those patterns is followed by a
  character class disjoint from the quantified class, so the backtracking
  regex semantics coincide with maximal-munch scanning.
-/

/-! ### Characters and normalization (`dms-converter.py` line 13) -/

/-- Whitespace stripped by Python `str.strip` (ASCII part). -/
def pyWs (c : Char) : Bool :=
  c.toNat = 32 || c.toNat = 9 || c.toNat = 10 || c.toNat = 13 || c.toNat = 11 || c.toNat = 12

/-- Python `str.strip`: drop leading and trailing whitespace. -/
def pyStrip (l : List Char) : List Char :=
  ((l.dropWhile pyWs).reverse.dropWhile pyWs).reverse

/-- Python `str.replace(',', '.')` applied character-wise. -/
def replChar (c : Char) : Char := if c = ',' then '.' else c

/-- Python `str.upper` on one ASCII character. -/
def upChar (c : Char) : Char :=
  if h : 97 ≤ c.toNat ∧ c.toNat ≤ 122 then
    Char.ofNatAux (c.toNat - 32) (Or.inl (by omega))
  else c

/-- `str(dms_str).strip().replace(',', '.').upper()` — the normalization at
the start of `dms_to_dd` (`dms-converter.py` line 13). -/
def normalizeText (l : List Char) : List Char :=
  ((pyStrip l).map replChar).map upChar

/-! ### Python `float()` on a string -/

/-- Value of a run of decimal digits. -/
def digitsVal (ds : List Char) : ℕ :=
  ds.foldl (fun a c => 10 * a + (c.toNat - 48)) 0

/-- Components of an accepted Python float literal: sign, integer digits,
fraction digits, exponent sign, exponent digits (absent parts are `[]`,
which contribute the neutral value). -/
structure FloatLit where
  neg : Bool
  ip : List Char
  fp : List Char
  eneg : Bool
  ep : List Char
  deriving DecidableEq

/-- Optional leading sign: returns (isNegative, rest). -/
def signSplit (l : List Char) : Bool × List Char :=
  match l with
  | c :: r => if c = '+' then (false, r) else if c = '-' then (true, r) else (false, c :: r)
  | [] => (false, [])

/-- Syntactic recognizer for Python float literals
`[+|-] digits [. digits] [E [+|-] digits]` (the text reaching `float()` in
the embedded code is already uppercased, hence `E`). -/
def scanFloat (l : List Char) : Option FloatLit :=
  let sr := signSplit l
  let ip := sr.2.takeWhile Char.isDigit
  let r1 := sr.2.dropWhile Char.isDigit
  let fr : List Char × List Char :=
    match r1 with
    | c :: r => if c = '.' then (r.takeWhile Char.isDigit, r.dropWhile Char.isDigit) else ([], c :: r)
    | [] => ([], [])
  if ip = [] ∧ fr.1 = [] then none
  else
    match fr.2 with
    | [] => some ⟨sr.1, ip, fr.1, false, []⟩
    | c :: r3 =>
      if c = 'E' then
        let es := signSplit r3
        let ep := es.2.takeWhile Char.isDigit
        if ep = [] ∨ es.2.dropWhile Char.isDigit ≠ [] then none
        else some ⟨sr.1, ip, fr.1, es.1, ep⟩
      else none

/-- Numeric value of an accepted float literal. -/
def floatVal (f : FloatLit) : ℚ :=
  (if f.neg then (-1 : ℚ) else 1) *
    ((digitsVal f.ip : ℚ) + (digitsVal f.fp : ℚ) / 10 ^ f.fp.length) *
    (10 : ℚ) ^ ((if f.eneg then (-1 : ℤ) else 1) * (digitsVal f.ep : ℤ))

/-- Python `float(s)`: the parsed value, or `none` when `float` raises. -/
def parseFloat? (l : List Char) : Option ℚ :=
  (scanFloat l).map floatVal

/-! ### The component scan `re.findall(r"[\d.]+|[NSEW]", s)` -/

/-- Character class `[\d.]`. -/
def isDigitDot (c : Char) : Bool := c.isDigit || c = '.'

/-- Character class `[NSEW]`. -/
def isNSEW (c : Char) : Bool := c = 'N' || c = 'S' || c = 'E' || c = 'W'

/-- Fuelled left-to-right scan for `re.findall(r"[\d.]+|[NSEW]", s)`:
maximal `[\d.]` runs, single hemisphere letters, other characters skipped. -/
def findPartsF : Nat → List Char → List (List Char)
  | 0, _ => []
  | _, [] => []
  | fuel + 1, c :: cs =>
    if isDigitDot c then
      (c :: cs.takeWhile isDigitDot) :: findPartsF fuel (cs.dropWhile isDigitDot)
    else if isNSEW c then [c] :: findPartsF fuel cs
    else findPartsF fuel cs

/-- All tokens found by `re.findall(r"[\d.]+|[NSEW]", s)`. -/
def findParts (l : List Char) : List (List Char) := findPartsF l.length l

/-! ### `dms_to_dd` (`dms-converter.py` lines 8–43) -/

/-- Tokens equal to one of the strings `'N'`, `'S'`, `'E'`, `'W'`
(the membership test `p in ('N', 'S', 'E', 'W')`). -/
def isLetterPart (p : List Char) : Bool :=
  p = ['N'] || p = ['S'] || p = ['E'] || p = ['W']

/-- `[float(p) for p in parts if p not in ('N','S','E','W')]`:
converts the numeric tokens in order, failing with the first token on which
`float` raises `ValueError`. -/
def floatTokens : List (List Char) → Except (List Char) (List ℚ)
  | [] => .ok []
  | p :: ps =>
    if isLetterPart p then floatTokens ps
    else
      match scanFloat p with
      | none => .error p
      | some fl => (floatTokens ps).map (fun vs => floatVal fl :: vs)

/-- Outcome of `dms_to_dd`: a value, the `ValueError` raised on line 26
("Could not find coordinate components"), or the `ValueError` raised by
`float(p)` on line 29 for the offending token. -/
inductive DmsOut
  | ok (v : ℚ)
  | errNoComponents
  | errBadFloat (tok : List Char)
  deriving DecidableEq

/-- `dms_to_dd` (`dms-converter.py` lines 8–43): normalize, try the plain
`float` fast path, otherwise scan components, convert the numeric tokens,
take the first hemisphere letter, and combine `D + M/60 + S/3600` with the
sign given by the hemisphere. -/
def dms_to_dd (s : List Char) : DmsOut :=
  let t := normalizeText s
  match parseFloat? t with
  | some v => .ok v
  | none =>
    let parts := findParts t
    if parts = [] then .errNoComponents
    else
      match floatTokens parts with
      | .error tok => .errBadFloat tok
      | .ok nums =>
        let direction := parts.find? isLetterPart
        let dd := nums.getD 0 0 + nums.getD 1 0 / 60 + nums.getD 2 0 / 3600
        if direction = some ['S'] ∨ direction = some ['W'] then .ok (-dd) else .ok dd

/-! ### `convert_dataframe` (`dms-converter.py` lines 45–63) -/

/-- Python `round(x, 6)`: round to 6 decimal places, ties to even. -/
def round6 (q : ℚ) : ℚ :=
  let s := q * 1000000
  let f : ℤ := ⌊s⌋
  let r := s - (f : ℚ)
  let n : ℤ := if r < 1/2 then f else if 1/2 < r then f + 1 else if 2 ∣ f then f else f + 1
  (n : ℚ) / 1000000

/-- One success row appended by `convert_dataframe`. -/
structure OutRow where
  olat : List Char
  olon : List Char
  dlat : ℚ
  dlon : ℚ
  deriving DecidableEq

/-- One failure entry appended by `convert_dataframe`: the 1-based row
position (`index + 1`) and both original field values. -/
structure ErrRow where
  pos : Nat
  olat : List Char
  olon : List Char
  deriving DecidableEq

/-- Row loop of `convert_dataframe`, carrying the 0-based dataframe index. -/
def convertRowsFrom (i : Nat) : List (List Char × List Char) → List OutRow × List ErrRow
  | [] => ([], [])
  | (lat, lon) :: rest =>
    let tl := convertRowsFrom (i + 1) rest
    match dms_to_dd lat, dms_to_dd lon with
    | .ok a, .ok b => (⟨lat, lon, round6 a, round6 b⟩ :: tl.1, tl.2)
    | _, _ => (tl.1, ⟨i + 1, lat, lon⟩ :: tl.2)

/-- `convert_dataframe` (`dms-converter.py` lines 45–63): convert both fields
of every row; a row where either conversion raises contributes one error
entry instead of a result row, and processing continues. -/
def convert_dataframe (rows : List (List Char × List Char)) : List OutRow × List ErrRow :=
  convertRowsFrom 0 rows

/-! ### `extract_pair_from_line` (`app.py` lines 38–52) and its caller's
fallback split (`app.py` lines 79–83) -/

/-- Character class `\s` of the `app.py` regex (ASCII part). -/
def isWsRe (c : Char) : Bool := pyWs c

/-- Case-insensitive `[NS]`. -/
def isNSci (c : Char) : Bool := c = 'N' || c = 'S' || c = 'n' || c = 's'

/-- Case-insensitive `[EW]`. -/
def isEWci (c : Char) : Bool := c = 'E' || c = 'W' || c = 'e' || c = 'w'

/-- Deterministic matcher for one group of the `app.py` pair regex,
`\d+°\s*\d*\'?\s*\d*"?\s*[NS]` (or `[EW]`): every quantified class is
disjoint from the class that follows it, so maximal munch equals the regex
semantics. Returns (matched text, rest). -/
def dmsTok (hemi : Char → Bool) (l : List Char) : Option (List Char × List Char) :=
  let d1 := l.takeWhile Char.isDigit
  match l.dropWhile Char.isDigit with
  | c :: r2 =>
    if d1 = [] then none
    else if c = '°' then
      let w1 := r2.takeWhile isWsRe
      let r3 := r2.dropWhile isWsRe
      let d2 := r3.takeWhile Char.isDigit
      let r4 := r3.dropWhile Char.isDigit
      let a1 : List Char × List Char :=
        match r4 with
        | c2 :: r => if c2 = Char.ofNat 39 then ([c2], r) else ([], c2 :: r)
        | [] => ([], [])
      let w2 := a1.2.takeWhile isWsRe
      let r5 := a1.2.dropWhile isWsRe
      let d3 := r5.takeWhile Char.isDigit
      let r6 := r5.dropWhile Char.isDigit
      let q1 : List Char × List Char :=
        match r6 with
        | c2 :: r => if c2 = Char.ofNat 34 then ([c2], r) else ([], c2 :: r)
        | [] => ([], [])
      let w3 := q1.2.takeWhile isWsRe
      match q1.2.dropWhile isWsRe with
      | c2 :: r7 =>
        if hemi c2 then
          some (d1 ++ '°' :: (w1 ++ d2 ++ a1.1 ++ w2 ++ d3 ++ q1.1 ++ w3 ++ [c2]), r7)
        else none
      | [] => none
    else none
  | [] => none

/-- Separator `[, ]+\s*` between the two groups. -/
def sepMatch (l : List Char) : Option (List Char) :=
  let s1 := l.takeWhile (fun c => c = ',' || c = ' ')
  if s1 = [] then none
  else some ((l.dropWhile (fun c => c = ',' || c = ' ')).dropWhile isWsRe)

/-- `re.search` of the pair pattern: try the match at each start position,
left to right. -/
def pairSearch : List Char → Option (List Char × List Char)
  | [] => none
  | c :: cs =>
    match
      (match dmsTok isNSci (c :: cs) with
       | some (g1, r) =>
         match sepMatch r with
         | some r2 =>
           match dmsTok isEWci r2 with
           | some (g2, _) => some (g1, g2)
           | none => none
         | none => none
       | none => none) with
    | some p => some p
    | none => pairSearch cs

/-- `extract_pair_from_line` (`app.py` lines 38–52): the two matched groups,
or `(None, None)` when the pattern does not occur. -/
def extract_pair_from_line (l : List Char) : Option (List Char) × Option (List Char) :=
  match pairSearch l with
  | some (g1, g2) => (some g1, some g2)
  | none => (none, none)

/-- `re.split(r'[,/]', line)`: split at every comma or slash. -/
def splitCommaSlash : List Char → List (List Char)
  | [] => [[]]
  | c :: cs =>
    match splitCommaSlash cs with
    | [] => [[c]]
    | p :: ps => if c = ',' || c = '/' then [] :: p :: ps else (c :: p) :: ps

/-- The caller's fallback pieces (`app.py` line 81):
`[p.strip() for p in re.split(r'[,/]', line) if p.strip()]`. -/
def fallbackPieces (l : List Char) : List (List Char) :=
  ((splitCommaSlash l).map pyStrip).filter (fun p => p ≠ [])

/-- The pair extraction as performed per line by `app.py` lines 78–84:
primary regex search, then the comma/slash split fallback when the primary
found nothing. -/
def extract_pair (l : List Char) : Option (List Char) × Option (List Char) :=
  match extract_pair_from_line l with
  | (some a, some b) => (some a, some b)
  | _ =>
    match fallbackPieces l with
    | [a, b] => (some a, some b)
    | _ => (none, none)

/-! ### Characterizing `convert_dataframe` -/

/-- A row succeeds iff both of its fields parse. -/
def rowOk (p : List Char × List Char) : Bool :=
  match dms_to_dd p.1, dms_to_dd p.2 with
  | .ok _, .ok _ => true
  | _, _ => false

/-- The parsed value of a successful conversion (0 for failures; only used
under a `rowOk` guard). -/
def okValD : DmsOut → ℚ
  | .ok v => v
  | _ => 0

/-- Success row built from an indexed input row. -/
def mkOutRow (p : ℕ × List Char × List Char) : OutRow :=
  ⟨p.2.1, p.2.2, round6 (okValD (dms_to_dd p.2.1)), round6 (okValD (dms_to_dd p.2.2))⟩

/-- Failure entry built from an indexed input row. -/
def mkErrRow (p : ℕ × List Char × List Char) : ErrRow :=
  ⟨p.1 + 1, p.2.1, p.2.2⟩

/-! ### Definitions modelled from the specification text, for comparison
with the code (claims C7 and C8 describe the extractor in spec terms) -/

/-- Modelled from the spec: the primary-path token pattern of section 4.3 /
claim C7, "one or more digits, followed by any non-digit/non-hemisphere
characters, followed by a hemisphere letter", matched at the start of `l`
(each quantified class is disjoint from its successor, so maximal munch
equals regex semantics). Returns (token, rest). -/
def specTokMatch (l : List Char) : Option (List Char × List Char) :=
  let ds := l.takeWhile Char.isDigit
  if ds = [] then none
  else
    let r1 := l.dropWhile Char.isDigit
    let mid := r1.takeWhile (fun c => !c.isDigit && !isNSEW c)
    match r1.dropWhile (fun c => !c.isDigit && !isNSEW c) with
    | c :: r3 => if isNSEW c then some (ds ++ mid ++ [c], r3) else none
    | [] => none

/-- Modelled from the spec: all hemisphere-terminated tokens of the line,
collected left to right and non-overlapping, as claim C7 describes. -/
def specTokensF : Nat → List Char → List (List Char)
  | 0, _ => []
  | _, [] => []
  | fuel + 1, c :: cs =>
    match specTokMatch (c :: cs) with
    | some (tok, rest) => tok :: specTokensF fuel rest
    | none => specTokensF fuel cs

/-- Modelled from the spec: the token list of claim C7. -/
def specTokens (l : List Char) : List (List Char) := specTokensF l.length l

/-- Modelled from the spec: claim C8's fallback split on "comma, semicolon,
or slash" delimiters. -/
def specSplitDelim : List Char → List (List Char)
  | [] => [[]]
  | c :: cs =>
    match specSplitDelim cs with
    | [] => [[c]]
    | p :: ps => if c = ',' || c = ';' || c = '/' then [] :: p :: ps else (c :: p) :: ps

/-- Modelled from the spec: claim C8's fallback pieces — split on comma,
semicolon, or slash, trim each piece, discard empty pieces. -/
def specFallbackPieces (l : List Char) : List (List Char) :=
  ((specSplitDelim l).map pyStrip).filter (fun p => p ≠ [])

/-! ### Helper lemmas: `dropWhile`, `takeWhile`, membership -/

theorem length_dropWhile_le (p : Char → Bool) (l : List Char) :
    (l.dropWhile p).length ≤ l.length := by
  induction l with
  | nil => simp
  | cons c cs ih =>
    by_cases h : p c
    · simp only [List.dropWhile_cons, if_pos h, List.length_cons]
      omega
    · simp [List.dropWhile_cons, h]

theorem dropWhile_idem (p : Char → Bool) (l : List Char) :
    (l.dropWhile p).dropWhile p = l.dropWhile p := by
  induction l with
  | nil => rfl
  | cons c cs ih =>
    by_cases h : p c <;> simp [List.dropWhile_cons, h, ih]

theorem dropWhile_eq_self_of_prefix {p : Char → Bool} {m k : List Char}
    (hm : m.dropWhile p = m) (hk : k <+: m) : k.dropWhile p = k := by
  cases k with
  | nil => rfl
  | cons a t =>
    obtain ⟨s, hs⟩ := hk
    have hpa : p a = false := by
      by_contra hpa
      rw [Bool.not_eq_false] at hpa
      rw [← hs, List.cons_append, List.dropWhile_cons, if_pos hpa] at hm
      have h1 := length_dropWhile_le p (t ++ s)
      have h2 : ((t ++ s).dropWhile p).length = (a :: (t ++ s)).length :=
        congrArg List.length hm
      rw [List.length_cons] at h2
      omega
    rw [List.dropWhile_cons, if_neg (by simp [hpa])]

theorem dropWhile_suffix (p : Char → Bool) (l : List Char) :
    ∃ t, t ++ l.dropWhile p = l := by
  induction l with
  | nil => exact ⟨[], rfl⟩
  | cons c cs ih =>
    by_cases h : p c
    · obtain ⟨t, ht⟩ := ih
      exact ⟨c :: t, by simp [List.dropWhile_cons, h, ht]⟩
    · exact ⟨[], by simp [List.dropWhile_cons, h]⟩

theorem mem_takeWhile {p : Char → Bool} {l : List Char} {c : Char}
    (h : c ∈ l.takeWhile p) : c ∈ l ∧ p c = true := by
  induction l with
  | nil => simp at h
  | cons a as ih =>
    rw [List.takeWhile_cons] at h
    by_cases hp : p a
    · rw [if_pos hp] at h
      rcases List.mem_cons.mp h with rfl | h'
      · exact ⟨List.mem_cons_self _ _, hp⟩
      · exact ⟨List.mem_cons_of_mem _ (ih h').1, (ih h').2⟩
    · rw [if_neg hp] at h
      simp at h

theorem mem_dropWhile {p : Char → Bool} {l : List Char} {c : Char}
    (h : c ∈ l.dropWhile p) : c ∈ l := by
  induction l with
  | nil => simp at h
  | cons a as ih =>
    rw [List.dropWhile_cons] at h
    by_cases hp : p a
    · rw [if_pos hp] at h
      exact List.mem_cons_of_mem _ (ih h)
    · rw [if_neg hp] at h
      exact h

/-! ### Helper lemmas: normalization characters -/

theorem upChar_of_not_lower {c : Char} (h : ¬(97 ≤ c.toNat ∧ c.toNat ≤ 122)) :
    upChar c = c := dif_neg h

theorem toNat_upChar_lower {c : Char} (h : 97 ≤ c.toNat ∧ c.toNat ≤ 122) :
    (upChar c).toNat = c.toNat - 32 := by
  simp only [upChar, dif_pos h]
  rfl

theorem upChar_idem (c : Char) : upChar (upChar c) = upChar c := by
  by_cases h : 97 ≤ c.toNat ∧ c.toNat ≤ 122
  · have ht := toNat_upChar_lower h
    apply upChar_of_not_lower
    rw [ht]
    omega
  · rw [upChar_of_not_lower h, upChar_of_not_lower h]

theorem replChar_ne_comma (c : Char) : replChar c ≠ ',' := by
  unfold replChar
  split
  · decide
  · rename_i h
    exact h

theorem pyWs_false_of_ge {c : Char} (h : 65 ≤ c.toNat) : pyWs c = false := by
  simp only [pyWs, Bool.or_eq_false_iff, decide_eq_false_iff_not]
  omega

theorem pyWs_upChar (c : Char) : pyWs (upChar c) = pyWs c := by
  by_cases h : 97 ≤ c.toNat ∧ c.toNat ≤ 122
  · have ht := toNat_upChar_lower h
    rw [pyWs_false_of_ge (by omega), pyWs_false_of_ge (by omega : 65 ≤ c.toNat)]
  · rw [upChar_of_not_lower h]

theorem pyWs_replChar (c : Char) : pyWs (replChar c) = pyWs c := by
  by_cases h : c = ','
  · subst h
    decide
  · rw [show replChar c = c from if_neg h]

theorem replChar_of_ne {d : Char} (h : d ≠ ',') : replChar d = d := if_neg h

theorem upChar_replChar_idem (c : Char) :
    upChar (replChar (upChar (replChar c))) = upChar (replChar c) := by
  have hdne : replChar c ≠ ',' := replChar_ne_comma c
  have hune : upChar (replChar c) ≠ ',' := by
    intro he
    by_cases h : 97 ≤ (replChar c).toNat ∧ (replChar c).toNat ≤ 122
    · have ht := toNat_upChar_lower h
      rw [he] at ht
      have h44 : (',' : Char).toNat = 44 := rfl
      omega
    · rw [upChar_of_not_lower h] at he
      exact hdne he
  rw [replChar_of_ne hune, upChar_idem]

/-! ### Helper lemmas: `pyStrip` and `normalizeText` -/

theorem pyStrip_idem (l : List Char) : pyStrip (pyStrip l) = pyStrip l := by
  unfold pyStrip
  set m := l.dropWhile pyWs with hm
  set x := m.reverse.dropWhile pyWs with hx
  have hxm : x.reverse.dropWhile pyWs = x.reverse := by
    apply dropWhile_eq_self_of_prefix (dropWhile_idem pyWs l)
    obtain ⟨t, ht⟩ := dropWhile_suffix pyWs m.reverse
    rw [hx]
    refine ⟨t.reverse, ?_⟩
    have := congrArg List.reverse ht
    simpa using this
  rw [hxm, List.reverse_reverse, hx, dropWhile_idem pyWs m.reverse]

theorem dropWhile_map (g : Char → Char) (p : Char → Bool) (l : List Char)
    (h : ∀ c, p (g c) = p c) : (l.map g).dropWhile p = (l.dropWhile p).map g := by
  induction l with
  | nil => rfl
  | cons c cs ih =>
    cases hpc : p c with
    | true => simp [List.dropWhile_cons, h c, hpc, ih]
    | false => simp [List.dropWhile_cons, h c, hpc]

theorem pyStrip_map (g : Char → Char) (h : ∀ c, pyWs (g c) = pyWs c) (l : List Char) :
    pyStrip (l.map g) = (pyStrip l).map g := by
  unfold pyStrip
  rw [dropWhile_map g pyWs l h, ← List.map_reverse, dropWhile_map g pyWs _ h, ← List.map_reverse]


/-! ### Structure lemmas for `dms_to_dd` -/

theorem dms_to_dd_fast {l : List Char} {v : ℚ}
    (h : parseFloat? (normalizeText l) = some v) : dms_to_dd l = .ok v := by
  simp only [dms_to_dd, h]

theorem dms_to_dd_badFloat {l : List Char} {tok : List Char}
    (h1 : parseFloat? (normalizeText l) = none)
    (h2 : floatTokens (findParts (normalizeText l)) = .error tok)
    (h3 : findParts (normalizeText l) ≠ []) :
    dms_to_dd l = .errBadFloat tok := by
  simp only [dms_to_dd, h1, h2, if_neg h3]

theorem dms_to_dd_component {l : List Char} {nums : List ℚ}
    (h1 : parseFloat? (normalizeText l) = none)
    (h2 : floatTokens (findParts (normalizeText l)) = .ok nums)
    (h3 : findParts (normalizeText l) ≠ []) :
    dms_to_dd l =
      if (findParts (normalizeText l)).find? isLetterPart = some ['S'] ∨
          (findParts (normalizeText l)).find? isLetterPart = some ['W'] then
        .ok (-(nums.getD 0 0 + nums.getD 1 0 / 60 + nums.getD 2 0 / 3600))
      else
        .ok (nums.getD 0 0 + nums.getD 1 0 / 60 + nums.getD 2 0 / 3600) := by
  simp only [dms_to_dd, h1, h2, if_neg h3]

/-! ### Lemmas connecting the component scan and `float` acceptance -/

theorem findPartsF_nil {fuel : Nat} {t : List Char} (hf : t.length ≤ fuel)
    (h : findPartsF fuel t = []) :
    ∀ c ∈ t, isDigitDot c = false ∧ isNSEW c = false := by
  induction fuel generalizing t with
  | zero =>
    cases t with
    | nil => simp
    | cons c cs => simp at hf
  | succ n ih =>
    cases t with
    | nil => simp
    | cons c cs =>
      unfold findPartsF at h
      by_cases h1 : isDigitDot c
      · rw [if_pos h1] at h
        simp at h
      · rw [if_neg h1] at h
        by_cases h2 : isNSEW c
        · rw [if_pos h2] at h
          simp at h
        · rw [if_neg h2] at h
          intro x hx
          rcases List.mem_cons.mp hx with rfl | hx'
          · exact ⟨Bool.eq_false_iff.mpr h1, Bool.eq_false_iff.mpr h2⟩
          · have hfl : cs.length ≤ n := by
              simp only [List.length_cons] at hf
              omega
            exact ih hfl h x hx'

theorem mem_signSplit_snd {t : List Char} {c : Char}
    (h : c ∈ (signSplit t).2) : c ∈ t := by
  cases t with
  | nil => simp [signSplit] at h
  | cons a r =>
    simp only [signSplit] at h
    split at h
    · exact List.mem_cons_of_mem _ h
    · split at h
      · exact List.mem_cons_of_mem _ h
      · exact h

theorem scanFloat_some_digit {t : List Char} {fl : FloatLit}
    (h : scanFloat t = some fl) : ∃ c ∈ t, c.isDigit = true := by
  simp only [scanFloat] at h
  split at h
  · exact absurd h (by simp)
  · rename_i hcond
    rw [not_and_or] at hcond
    rcases hcond with hip | hfp
    · have hne : (signSplit t).2.takeWhile Char.isDigit ≠ [] := hip
      rcases List.exists_mem_of_ne_nil _ hne with ⟨c, hc⟩
      have hm := mem_takeWhile hc
      exact ⟨c, mem_signSplit_snd hm.1, hm.2⟩
    · rcases hr1 : (signSplit t).2.dropWhile Char.isDigit with _ | ⟨c, r⟩
      · simp only [hr1] at hfp
        simp at hfp
      · simp only [hr1] at hfp
        by_cases hdot : c = '.'
        · rw [if_pos hdot] at hfp
          simp only at hfp
          have hne : r.takeWhile Char.isDigit ≠ [] := by
            intro hee
            exact hfp (by simp [hee])
          rcases List.exists_mem_of_ne_nil _ hne with ⟨d, hd⟩
          have hm := mem_takeWhile hd
          refine ⟨d, ?_, hm.2⟩
          have hdr : d ∈ (signSplit t).2.dropWhile Char.isDigit := by
            rw [hr1]
            exact List.mem_cons_of_mem _ hm.1
          exact mem_signSplit_snd (mem_dropWhile hdr)
        · rw [if_neg hdot] at hfp
          simp at hfp

theorem parseFloat_none_of_findParts_nil {t : List Char}
    (h : findParts t = []) : parseFloat? t = none := by
  rcases hs : scanFloat t with _ | fl
  · simp [parseFloat?, hs]
  · exfalso
    rcases scanFloat_some_digit hs with ⟨c, hc, hdig⟩
    have hall := (findPartsF_nil (le_refl t.length) h) c hc
    rw [show isDigitDot c = true by simp [isDigitDot, hdig]] at hall
    exact absurd hall.1 (by simp)

/-! ### Nonnegativity of component values -/

theorem findPartsF_shape {fuel : Nat} {t : List Char} (hf : t.length ≤ fuel) :
    ∀ p ∈ findPartsF fuel t,
      isLetterPart p = true ∨ (p ≠ [] ∧ ∀ c ∈ p, isDigitDot c = true) := by
  induction fuel generalizing t with
  | zero =>
    cases t with
    | nil => simp [findPartsF]
    | cons c cs => simp at hf
  | succ n ih =>
    cases t with
    | nil => simp [findPartsF]
    | cons c cs =>
      have hlen : cs.length ≤ n := by
        simp only [List.length_cons] at hf
        omega
      unfold findPartsF
      by_cases h1 : isDigitDot c
      · rw [if_pos h1]
        intro p hp
        rcases List.mem_cons.mp hp with rfl | hp'
        · refine Or.inr ⟨by simp, ?_⟩
          intro x hx
          rcases List.mem_cons.mp hx with rfl | hx'
          · exact h1
          · exact (mem_takeWhile hx').2
        · have hlen2 : (cs.dropWhile isDigitDot).length ≤ n :=
            le_trans (length_dropWhile_le _ _) hlen
          exact ih hlen2 p hp'
      · rw [if_neg h1]
        by_cases h2 : isNSEW c
        · rw [if_pos h2]
          intro p hp
          rcases List.mem_cons.mp hp with rfl | hp'
          · left
            simp only [isNSEW, Bool.or_eq_true, decide_eq_true_eq] at h2
            rcases h2 with ((rfl | rfl) | rfl) | rfl <;> decide
          · exact ih hlen p hp'
        · rw [if_neg h2]
          exact ih hlen

theorem signSplit_of_digitDot {t : List Char} (hne : t ≠ [])
    (hd : ∀ c ∈ t, isDigitDot c = true) : signSplit t = (false, t) := by
  cases t with
  | nil => exact absurd rfl hne
  | cons a r =>
    have ha := hd a (List.mem_cons_self a r)
    have hap : a ≠ '+' := by
      intro he
      subst he
      simp [isDigitDot] at ha
    have ham : a ≠ '-' := by
      intro he
      subst he
      simp [isDigitDot] at ha
    simp [signSplit, hap, ham]

theorem scanFloat_neg_false {t : List Char} {fl : FloatLit} (hne : t ≠ [])
    (hd : ∀ c ∈ t, isDigitDot c = true) (h : scanFloat t = some fl) :
    fl.neg = false := by
  have hss := signSplit_of_digitDot hne hd
  simp only [scanFloat, hss] at h
  split at h
  · exact absurd h (by simp)
  · split at h
    · rw [Option.some_inj] at h
      rw [← h]
    · rename_i c r3 hc
      split at h
      · split at h
        · exact absurd h (by simp)
        · rw [Option.some_inj] at h
          rw [← h]
      · exact absurd h (by simp)

theorem floatVal_nonneg {fl : FloatLit} (h : fl.neg = false) : 0 ≤ floatVal fl := by
  unfold floatVal
  rw [h]
  have h1 : (0 : ℚ) ≤ (digitsVal fl.ip : ℚ) := Nat.cast_nonneg _
  have h2 : (0 : ℚ) ≤ (digitsVal fl.fp : ℚ) / 10 ^ fl.fp.length := by
    apply div_nonneg (Nat.cast_nonneg _)
    positivity
  have h3 : (0 : ℚ) < (10 : ℚ) ^ ((if fl.eneg then (-1 : ℤ) else 1) * (digitsVal fl.ep : ℤ)) :=
    zpow_pos (by norm_num) _
  rw [if_neg (by simp : ¬(false = true))]
  nlinarith

theorem floatTokens_nonneg {ps : List (List Char)} {nums : List ℚ}
    (hs : ∀ p ∈ ps, isLetterPart p = true ∨ (p ≠ [] ∧ ∀ c ∈ p, isDigitDot c = true))
    (h : floatTokens ps = .ok nums) : ∀ v ∈ nums, 0 ≤ v := by
  induction ps generalizing nums with
  | nil =>
    simp only [floatTokens] at h
    cases h
    simp
  | cons p ps ih =>
    unfold floatTokens at h
    by_cases hlp : isLetterPart p
    · rw [if_pos hlp] at h
      exact ih (fun q hq => hs q (List.mem_cons_of_mem _ hq)) h
    · rw [if_neg hlp] at h
      rcases hsf : scanFloat p with _ | fl
      · rw [hsf] at h
        simp at h
      · rw [hsf] at h
        rcases hft : floatTokens ps with tok | vs
        · rw [hft] at h
          simp [Except.map] at h
        · rw [hft] at h
          simp only [Except.map] at h
          rw [Except.ok.injEq] at h
          subst h
          intro v hv
          rcases List.mem_cons.mp hv with rfl | hv'
          · apply floatVal_nonneg
            rcases hs p (List.mem_cons_self p ps) with hl | ⟨hne, hd⟩
            · exact absurd hl (by simp [hlp])
            · exact scanFloat_neg_false hne hd hsf
          · exact ih (fun q hq => hs q (List.mem_cons_of_mem _ hq)) hft v hv'

theorem getD_nonneg : ∀ (nums : List ℚ), (∀ v ∈ nums, 0 ≤ v) → ∀ i, 0 ≤ nums.getD i 0
  | [], _, _ => by simp
  | v :: vs, h, 0 => by simpa using h v (List.mem_cons_self v vs)
  | v :: vs, h, i + 1 => by
    simpa using getD_nonneg vs (fun x hx => h x (List.mem_cons_of_mem _ hx)) i

/-! ### Characterization of the batch converter -/

theorem convertRowsFrom_eq (rows : List (List Char × List Char)) : ∀ i,
    convertRowsFrom i rows =
      (((rows.enumFrom i).filter (fun p => rowOk p.2)).map mkOutRow,
        ((rows.enumFrom i).filter (fun p => !rowOk p.2)).map mkErrRow) := by
  induction rows with
  | nil => intro i; rfl
  | cons r rest ih =>
    intro i
    obtain ⟨lat, lon⟩ := r
    have hcons : (((lat, lon) :: rest).enumFrom i) = (i, (lat, lon)) :: rest.enumFrom (i + 1) := rfl
    rw [hcons]
    unfold convertRowsFrom
    rw [ih (i + 1)]
    rcases hla : dms_to_dd lat with va | _ | tok <;>
      rcases hlo : dms_to_dd lon with vb | _ | tok' <;>
        simp [rowOk, hla, hlo, List.filter_cons, mkOutRow, mkErrRow, okValD]

/-! ### Claims -/

/-- C9: normalization is idempotent — for every string `x`,
`normalize (normalize x) = normalize x`, where `normalize` is the
strip / comma-to-period / uppercase preprocessing at the start of the
scalar parser. -/
theorem c9_normalize_idempotent (l : List Char) :
    normalizeText (normalizeText l) = normalizeText l := by
  unfold normalizeText
  simp only [List.map_map]
  have hg : ∀ c, pyWs ((upChar ∘ replChar) c) = pyWs c := fun c => by
    simp only [Function.comp_apply]
    rw [pyWs_upChar, pyWs_replChar]
  rw [pyStrip_map _ hg, List.map_map]
  have hcomp : (upChar ∘ replChar) ∘ upChar ∘ replChar = upChar ∘ replChar :=
    funext fun c => upChar_replChar_idem c
  rw [hcomp, pyStrip_idem]

/-- C10: converting the extracted tokens to numbers is not total — an input
whose `[\d.]+` tokens include a bare dot or a multi-dot run makes `dms_to_dd`
raise the `float`-conversion `ValueError`, which is different from the
documented "could not find coordinate components" failure. -/
theorem c10_float_conversion_not_total :
    dms_to_dd "1.2.3 N".data = .errBadFloat "1.2.3".data ∧
      dms_to_dd "x . y N".data = .errBadFloat ".".data ∧
      DmsOut.errBadFloat "1.2.3".data ≠ .errNoComponents := by
  exact ⟨by decide, by decide, by decide⟩

/-- C3 counterexample: `parse_coordinate("not a coordinate")` does not fail —
the uppercased text contains the letters N, N, E, so the component scan is
non-empty and the parser returns 0 instead of raising. -/
theorem c3_cex_not_a_coordinate :
    dms_to_dd "not a coordinate".data = .ok 0 := by
  have h1 : parseFloat? (normalizeText "not a coordinate".data) = none := by decide
  have h2 : floatTokens (findParts (normalizeText "not a coordinate".data)) =
      .ok ([] : List ℚ) := rfl
  have h3 : findParts (normalizeText "not a coordinate".data) ≠ [] := by decide
  rw [dms_to_dd_component h1 h2 h3, if_neg (by decide)]
  norm_num

/-- C3 (amended): `dms_to_dd` fails with the "no coordinate components"
error iff the component scan of the normalized text finds no token at all
(neither a digit-or-dot run nor a hemisphere letter); in particular the
empty string fails.  An input such as "not a coordinate" whose letters
include N/S/E/W yields tokens and therefore does not fail. -/
theorem c3_error_iff_no_tokens :
    (∀ l : List Char,
        dms_to_dd l = .errNoComponents ↔ findParts (normalizeText l) = []) ∧
      dms_to_dd "".data = .errNoComponents := by
  constructor
  · intro l
    constructor
    · intro h
      rcases hp : parseFloat? (normalizeText l) with _ | v
      · by_contra hne
        rcases hft : floatTokens (findParts (normalizeText l)) with tok | nums
        · rw [dms_to_dd_badFloat hp hft hne] at h
          exact absurd h (by simp)
        · rw [dms_to_dd_component hp hft hne] at h
          split at h <;> exact absurd h (by simp)
      · rw [dms_to_dd_fast hp] at h
        exact absurd h (by simp)
    · intro h
      have hpf := parseFloat_none_of_findParts_nil h
      simp [dms_to_dd, hpf, h]
  · decide

/-- C4: the plain-decimal fast path — whenever the whole normalized text
(comma already replaced by a period) parses as a float literal, `dms_to_dd`
returns that value unchanged, with no hemisphere inference; in particular
"40.7486" and "40,7486" both yield 40.7486. -/
theorem c4_plain_decimal_fast_path :
    (∀ (l : List Char) (v : ℚ),
        parseFloat? (normalizeText l) = some v → dms_to_dd l = .ok v) ∧
      dms_to_dd "40.7486".data = .ok (407486 / 10000) ∧
      dms_to_dd "40,7486".data = .ok (407486 / 10000) := by
  refine ⟨fun l v h => dms_to_dd_fast h, ?_, ?_⟩
  · have e : dms_to_dd "40.7486".data =
        .ok (floatVal ⟨false, ['4', '0'], ['7', '4', '8', '6'], false, []⟩) := rfl
    rw [e]
    have hd1 : digitsVal ['4', '0'] = 40 := rfl
    have hd2 : digitsVal ['7', '4', '8', '6'] = 7486 := rfl
    have hd0 : digitsVal ([] : List Char) = 0 := rfl
    norm_num [floatVal, hd1, hd2, hd0]
  · have e : dms_to_dd "40,7486".data =
        .ok (floatVal ⟨false, ['4', '0'], ['7', '4', '8', '6'], false, []⟩) := rfl
    rw [e]
    have hd1 : digitsVal ['4', '0'] = 40 := rfl
    have hd2 : digitsVal ['7', '4', '8', '6'] = 7486 := rfl
    have hd0 : digitsVal ([] : List Char) = 0 := rfl
    norm_num [floatVal, hd1, hd2, hd0]

/-- C4 witness: the fast-path theorem applied to the concrete input
"40.7486". -/
theorem c4_witness :
    dms_to_dd "40.7486".data =
      .ok (floatVal ⟨false, ['4', '0'], ['7', '4', '8', '6'], false, []⟩) :=
  c4_plain_decimal_fast_path.1 _ _ rfl

/-- C1: component extraction — when the normalized text does not parse as a
plain number but the scan extracts at least one numeric token (all of which
convert), the first three numbers become degrees, minutes, seconds (missing
ones default to 0, extra ones are ignored by `getD`), the first hemisphere
letter of the scan decides the sign, and the value is `D + M/60 + S/3600`;
in particular "40 44 N" ↦ 40 + 44/60, "40 N" ↦ 40, and (case-insensitively)
"40 44 n" ↦ 40 + 44/60. -/
theorem c1_component_extraction :
    (∀ (l : List Char) (nums : List ℚ),
        parseFloat? (normalizeText l) = none →
        floatTokens (findParts (normalizeText l)) = .ok nums →
        nums ≠ [] →
        dms_to_dd l =
          if (findParts (normalizeText l)).find? isLetterPart = some ['S'] ∨
              (findParts (normalizeText l)).find? isLetterPart = some ['W'] then
            .ok (-(nums.getD 0 0 + nums.getD 1 0 / 60 + nums.getD 2 0 / 3600))
          else .ok (nums.getD 0 0 + nums.getD 1 0 / 60 + nums.getD 2 0 / 3600)) ∧
      dms_to_dd "40 44 N".data = .ok (40 + 44 / 60) ∧
      dms_to_dd "40 N".data = .ok 40 ∧
      dms_to_dd "40 44 n".data = .ok (40 + 44 / 60) := by
  have hd40 : digitsVal ['4', '0'] = 40 := rfl
  have hd44 : digitsVal ['4', '4'] = 44 := rfl
  have hd0 : digitsVal ([] : List Char) = 0 := rfl
  refine ⟨?_, ?_, ?_, ?_⟩
  · intro l nums h1 h2 h3
    have hne : findParts (normalizeText l) ≠ [] := by
      intro hnil
      rw [hnil] at h2
      simp only [floatTokens] at h2
      rw [Except.ok.injEq] at h2
      exact h3 h2.symm
    exact dms_to_dd_component h1 h2 hne
  · have e : dms_to_dd "40 44 N".data =
        .ok (floatVal ⟨false, ['4', '0'], [], false, []⟩ +
          floatVal ⟨false, ['4', '4'], [], false, []⟩ / 60 + 0 / 3600) := rfl
    rw [e]
    norm_num [floatVal, hd40, hd44, hd0]
  · have e : dms_to_dd "40 N".data =
        .ok (floatVal ⟨false, ['4', '0'], [], false, []⟩ + 0 / 60 + 0 / 3600) := rfl
    rw [e]
    norm_num [floatVal, hd40, hd0]
  · have e : dms_to_dd "40 44 n".data =
        .ok (floatVal ⟨false, ['4', '0'], [], false, []⟩ +
          floatVal ⟨false, ['4', '4'], [], false, []⟩ / 60 + 0 / 3600) := rfl
    rw [e]
    norm_num [floatVal, hd40, hd44, hd0]

/-- C1 witness: the component-extraction theorem applied to the concrete
input "7 30 N" with its two extracted numbers. -/
theorem c1_witness : dms_to_dd "7 30 N".data ≠ .errNoComponents := by
  rw [c1_component_extraction.1 "7 30 N".data
      [floatVal ⟨false, ['7'], [], false, []⟩, floatVal ⟨false, ['3', '0'], [], false, []⟩]
      (by decide) rfl (by simp)]
  decide

/-- C2 counterexample: on "0 S" the parser finds hemisphere letter S, yet
the result is 0, which is not negative — so "sign is negative iff the letter
is S or W" fails as stated for zero magnitudes. -/
theorem c2_cex_zero_south :
    (findParts (normalizeText "0 S".data)).find? isLetterPart = some ['S'] ∧
      dms_to_dd "0 S".data = .ok 0 ∧ ¬((0 : ℚ) < 0 ∨ (0 : ℚ) ≠ 0) := by
  refine ⟨by decide, ?_, by simp⟩
  have h1 : parseFloat? (normalizeText "0 S".data) = none := by decide
  have h2 : floatTokens (findParts (normalizeText "0 S".data)) =
      .ok [floatVal ⟨false, ['0'], [], false, []⟩] := rfl
  have h3 : findParts (normalizeText "0 S".data) ≠ [] := by decide
  rw [dms_to_dd_component h1 h2 h3, if_pos (by decide)]
  have hd0 : digitsVal ['0'] = 0 := rfl
  have hdn : digitsVal ([] : List Char) = 0 := rfl
  norm_num [floatVal, hd0, hdn]

/-- C2 (amended): when the component path finds a hemisphere letter `d` and
succeeds with value `v`, `v` is negative iff `d ∈ {S, W}` and the computed
magnitude is nonzero; the claim's examples hold:
`parse_coordinate("35 45 30 S") < 0` and `parse_coordinate("35 45 30 N") > 0`. -/
theorem c2_hemisphere_sign :
    (∀ (l : List Char) (d : List Char) (v : ℚ),
        parseFloat? (normalizeText l) = none →
        (findParts (normalizeText l)).find? isLetterPart = some d →
        dms_to_dd l = .ok v →
        (v < 0 ↔ (d = ['S'] ∨ d = ['W']) ∧ v ≠ 0)) ∧
      dms_to_dd "35 45 30 S".data = .ok (-(35 + 45 / 60 + 30 / 3600)) ∧
      (-(35 + 45 / 60 + 30 / 3600) : ℚ) < 0 ∧
      dms_to_dd "35 45 30 N".data = .ok (35 + 45 / 60 + 30 / 3600) ∧
      (0 : ℚ) < 35 + 45 / 60 + 30 / 3600 := by
  have hd35 : digitsVal ['3', '5'] = 35 := rfl
  have hd45 : digitsVal ['4', '5'] = 45 := rfl
  have hd30 : digitsVal ['3', '0'] = 30 := rfl
  have hdn : digitsVal ([] : List Char) = 0 := rfl
  refine ⟨?_, ?_, by norm_num, ?_, by norm_num⟩
  · intro l d v h1 hd h3
    have hne : findParts (normalizeText l) ≠ [] := by
      intro hnil
      rw [hnil] at hd
      simp at hd
    rcases hft : floatTokens (findParts (normalizeText l)) with tok | nums
    · rw [dms_to_dd_badFloat h1 hft hne] at h3
      exact absurd h3 (by simp)
    · have hv := (dms_to_dd_component h1 hft hne).symm.trans h3
      have hshape := findPartsF_shape (le_refl (normalizeText l).length)
      have hnn := floatTokens_nonneg hshape hft
      have g0 := getD_nonneg nums hnn 0
      have g1 := getD_nonneg nums hnn 1
      have g2 := getD_nonneg nums hnn 2
      have hdd0 : 0 ≤ nums.getD 0 0 + nums.getD 1 0 / 60 + nums.getD 2 0 / 3600 := by
        have := div_nonneg g1 (by norm_num : (0:ℚ) ≤ 60)
        have := div_nonneg g2 (by norm_num : (0:ℚ) ≤ 3600)
        linarith
      by_cases hsw : d = ['S'] ∨ d = ['W']
      · have hcond : (findParts (normalizeText l)).find? isLetterPart = some ['S'] ∨
            (findParts (normalizeText l)).find? isLetterPart = some ['W'] := by
          rcases hsw with rfl | rfl
          · exact Or.inl hd
          · exact Or.inr hd
        rw [if_pos hcond, DmsOut.ok.injEq] at hv
        rw [← hv]
        constructor
        · intro hlt
          refine ⟨hsw, ?_⟩
          intro h0
          rw [h0] at hlt
          exact lt_irrefl 0 hlt
        · rintro ⟨-, hne0⟩
          have hddne : nums.getD 0 0 + nums.getD 1 0 / 60 + nums.getD 2 0 / 3600 ≠ 0 := by
            intro h0
            rw [h0] at hne0
            simp at hne0
          have hpos := lt_of_le_of_ne hdd0 (Ne.symm hddne)
          linarith
      · have hcond : ¬((findParts (normalizeText l)).find? isLetterPart = some ['S'] ∨
            (findParts (normalizeText l)).find? isLetterPart = some ['W']) := by
          intro hor
          rcases hor with hS | hW
          · rw [hd, Option.some_inj] at hS
            exact hsw (Or.inl hS)
          · rw [hd, Option.some_inj] at hW
            exact hsw (Or.inr hW)
        rw [if_neg hcond, DmsOut.ok.injEq] at hv
        rw [← hv]
        constructor
        · intro hlt
          exact absurd hlt (not_lt.mpr hdd0)
        · rintro ⟨hor, -⟩
          exact absurd hor hsw
  · have e : dms_to_dd "35 45 30 S".data =
        .ok (-(floatVal ⟨false, ['3', '5'], [], false, []⟩ +
          floatVal ⟨false, ['4', '5'], [], false, []⟩ / 60 +
          floatVal ⟨false, ['3', '0'], [], false, []⟩ / 3600)) := rfl
    rw [e]
    norm_num [floatVal, hd35, hd45, hd30, hdn]
  · have e : dms_to_dd "35 45 30 N".data =
        .ok (floatVal ⟨false, ['3', '5'], [], false, []⟩ +
          floatVal ⟨false, ['4', '5'], [], false, []⟩ / 60 +
          floatVal ⟨false, ['3', '0'], [], false, []⟩ / 3600) := rfl
    rw [e]
    norm_num [floatVal, hd35, hd45, hd30, hdn]

/-- C2 witness: the sign theorem applied to the concrete input "5 S". -/
theorem c2_witness :
    (-(floatVal ⟨false, ['5'], [], false, []⟩ + 0 / 60 + 0 / 3600) : ℚ) < 0 ↔
      ((['S'] : List Char) = ['S'] ∨ (['S'] : List Char) = ['W']) ∧
        (-(floatVal ⟨false, ['5'], [], false, []⟩ + 0 / 60 + 0 / 3600) : ℚ) ≠ 0 :=
  c2_hemisphere_sign.1 "5 S".data ['S'] _ (by decide) (by decide) rfl

/-- C5: batch conversion — in input order, `convert_dataframe` produces one
success row for exactly the rows where both fields parse, and one failure
entry (1-based position plus both original values) for every other row; a
failing row never aborts the processing of subsequent rows. -/
theorem c5_batch_error_isolation (rows : List (List Char × List Char)) :
    convert_dataframe rows =
      ((rows.enum.filter (fun p => rowOk p.2)).map mkOutRow,
        (rows.enum.filter (fun p => !rowOk p.2)).map mkErrRow) := by
  unfold convert_dataframe
  rw [convertRowsFrom_eq rows 0]
  rfl

/-- C6 counterexample: the scalar parser returns the exact value
`35 + 45/60 + 30/3600` for "35 45 30 N", which differs from its rounding to
6 decimal places — so `parse_coordinate` does not round before returning. -/
theorem c6_cex_unrounded_scalar :
    dms_to_dd "35 45 30 N".data = .ok (35 + 45 / 60 + 30 / 3600) ∧
      round6 (35 + 45 / 60 + 30 / 3600 : ℚ) ≠ (35 + 45 / 60 + 30 / 3600 : ℚ) := by
  constructor
  · have hd35 : digitsVal ['3', '5'] = 35 := rfl
    have hd45 : digitsVal ['4', '5'] = 45 := rfl
    have hd30 : digitsVal ['3', '0'] = 30 := rfl
    have hdn : digitsVal ([] : List Char) = 0 := rfl
    have e : dms_to_dd "35 45 30 N".data =
        .ok (floatVal ⟨false, ['3', '5'], [], false, []⟩ +
          floatVal ⟨false, ['4', '5'], [], false, []⟩ / 60 +
          floatVal ⟨false, ['3', '0'], [], false, []⟩ / 3600) := rfl
    rw [e]
    norm_num [floatVal, hd35, hd45, hd30, hdn]
  · unfold round6
    norm_num

/-- C6 (amended): the scalar parser returns the unrounded value; the
rounding to 6 decimal places is applied by `convert_dataframe` to each
successfully parsed coordinate before it is stored in the result row. -/
theorem c6_rounding_in_batch :
    (∀ (lat lon : List Char) (a b : ℚ),
        dms_to_dd lat = .ok a → dms_to_dd lon = .ok b →
        convert_dataframe [(lat, lon)] = ([⟨lat, lon, round6 a, round6 b⟩], [])) ∧
      dms_to_dd "35 45 30 N".data = .ok (35 + 45 / 60 + 30 / 3600) := by
  constructor
  · intro lat lon a b ha hb
    simp [convert_dataframe, convertRowsFrom, ha, hb]
  · have hd35 : digitsVal ['3', '5'] = 35 := rfl
    have hd45 : digitsVal ['4', '5'] = 45 := rfl
    have hd30 : digitsVal ['3', '0'] = 30 := rfl
    have hdn : digitsVal ([] : List Char) = 0 := rfl
    have e : dms_to_dd "35 45 30 N".data =
        .ok (floatVal ⟨false, ['3', '5'], [], false, []⟩ +
          floatVal ⟨false, ['4', '5'], [], false, []⟩ / 60 +
          floatVal ⟨false, ['3', '0'], [], false, []⟩ / 3600) := rfl
    rw [e]
    norm_num [floatVal, hd35, hd45, hd30, hdn]

/-- C6 witness: the batch-rounding theorem applied to one concrete row. -/
theorem c6_witness :
    convert_dataframe [("40 N".data, "40 N".data)] =
      ([⟨"40 N".data, "40 N".data,
          round6 (floatVal ⟨false, ['4', '0'], [], false, []⟩ + 0 / 60 + 0 / 3600),
          round6 (floatVal ⟨false, ['4', '0'], [], false, []⟩ + 0 / 60 + 0 / 3600)⟩], []) :=
  c6_rounding_in_batch.1 _ _ _ _ rfl rfl

/-- C7 counterexample: the line "1°E 2°N" contains two tokens of the claimed
shape (digits, then non-digit/non-hemisphere characters, then a hemisphere
letter), yet `extract_pair_from_line` returns no pair — the code's regex
requires the first token to end in N/S and the second in E/W. -/
theorem c7_cex_order_of_hemispheres :
    specTokens "1°E 2°N".data = ["1°E".data, "2°N".data] ∧
      extract_pair_from_line "1°E 2°N".data = (none, none) := by
  exact ⟨by decide, by decide⟩

/-- C7 (amended): the primary path searches for a degree-marked DMS token
ending in N or S, followed by comma/space separators, followed by a
degree-marked token ending in E or W, case-insensitively, and returns the
two matched groups; in particular the claim's example holds. -/
theorem c7_pair_regex_examples :
    extract_pair_from_line "35°45'30\"N 82°18'45\"W".data =
        (some "35°45'30\"N".data, some "82°18'45\"W".data) ∧
      extract_pair_from_line "35°45'30\"n, 82°18'45\"w".data =
        (some "35°45'30\"n".data, some "82°18'45\"w".data) ∧
      extract_pair_from_line "1°N 2°E".data = (some "1°N".data, some "2°E".data) := by
  exact ⟨by decide, by decide, by decide⟩

/-- C8 counterexample: the claimed delimiter set includes the semicolon, and
splitting "35.758; -82.3" on it would give exactly the two pieces below —
but the code splits only on comma or slash, so `extract_pair` finds
nothing on this line. -/
theorem c8_cex_semicolon :
    specFallbackPieces "35.758; -82.3".data = ["35.758".data, "-82.3".data] ∧
      extract_pair "35.758; -82.3".data = (none, none) := by
  exact ⟨by decide, by decide⟩

/-- C8 (amended): when the primary regex finds no pair, the line is split on
comma or slash (not semicolon), the pieces are trimmed, empty ones dropped,
and the pair is returned exactly when two pieces remain; in particular
`extract_pair("35.758, -82.3") = ("35.758", "-82.3")`. -/
theorem c8_fallback_split :
    (∀ l : List Char, extract_pair_from_line l = (none, none) →
        extract_pair l =
          match fallbackPieces l with
          | [a, b] => (some a, some b)
          | _ => (none, none)) ∧
      extract_pair "35.758, -82.3".data = (some "35.758".data, some "-82.3".data) := by
  constructor
  · intro l h
    simp only [extract_pair, h]
  · decide

/-- C8 witness: the fallback theorem applied to a concrete line on which the
primary regex finds nothing. -/
theorem c8_witness :
    extract_pair "10.5 / 20.5".data =
      (match fallbackPieces "10.5 / 20.5".data with
        | [a, b] => (some a, some b)
        | _ => (none, none)) :=
  c8_fallback_split.1 _ (by decide)
